import Mathlib

/-!
Verification of the multi-label accuracy metrics and the optimal-threshold
search of `utils_cv/classification/model.py` (functions `hamming_accuracy`,
`zero_one_accuracy`, `get_optimal_threshold`).

The Python source being modelled is:

```
def hamming_accuracy(y_pred, y_true, threshold=0.2, sigmoid=False):
    if sigmoid:
        y_pred = y_pred.sigmoid()
    if threshold:
        y_pred = y_pred > threshold
    return 1 - ((y_pred.float() != y_true).sum() / torch.ones(y_pred.shape).sum())

def zero_one_accuracy(y_pred, y_true, threshold=0.2, sigmoid=False):
    if sigmoid:
        y_pred = y_pred.sigmoid()
    if threshold:
        y_pred = y_pred > threshold
    zero_one_preds = (y_pred.float() != y_true).sum(dim=1)
    zero_one_preds[zero_one_preds >= 1] = 1
    num_labels = y_pred.shape[-1]
    return 1 - (zero_one_preds.sum().float() / len(y_pred.reshape(-1, num_labels)))

def get_optimal_threshold(metric_function, y_pred, y_true, thresholds=np.linspace(0, 1, 21)):
    optimal_threshold = None
    metric_max = -np.inf
    for threshold in thresholds:
        metric = metric_function(y_pred, y_true, threshold=threshold)
        if metric > metric_max:
            metric_max = metric
            optimal_threshold = threshold
    return optimal_threshold
```

Tensors are embedded as lists of rows over a linear ordered field (`ℚ` for
the exact computations, `ℝ` where the logistic sigmoid is involved).
Tensor floats are modelled exactly.  The source has no shape validation of
its own: the only failure mode is the elementwise comparison
`y_pred != y_true`, which follows torch's broadcasting rules — two 2-D
shapes are combined dimension by dimension, a pair of sizes being
compatible iff they are equal or either is 1 (a size-1 dimension is
repeated), and torch raises only when some dimension pair is incompatible.
The embedding reproduces this: the metrics broadcast both operands to the
common shape and return an `Except.error` exactly for non-broadcastable
shapes.
-/

/-- A 2-D tensor, as a list of rows. -/
abbrev Mat (α : Type) := List (List α)

section Defs

variable {α : Type} [LinearOrderedField α]

/-- Rectangularity test: every row has the length of the first row.  Torch
tensors are rectangular by construction; a ragged list of rows does not
represent a tensor and is treated as an invalid input. -/
def isRectB (m : Mat α) : Bool :=
  m.all fun r => r.length == m.headI.length

/-- Torch's broadcasting rule for one dimension: two sizes are compatible
iff they are equal or either is 1. -/
def dimsCompat (a b : ℕ) : Bool :=
  a == b || a == 1 || b == 1

/-- Shape compatibility of the elementwise comparison `y_pred != y_true`:
torch raises only when the two 2-D shapes are not broadcastable, i.e. when
some dimension pair (row counts, or row lengths) is neither equal nor 1. -/
def broadcastCompat (a b : Mat α) : Bool :=
  isRectB a && isRectB b && dimsCompat a.length b.length &&
    dimsCompat a.headI.length b.headI.length

/-- Broadcast one row to width `K`: a row that already has width `K` is kept,
a (necessarily length-1) row is repeated `K` times. -/
def bcRow (K : ℕ) (r : List α) : List α :=
  if r.length == K then r else List.replicate K (r.headD 0)

/-- Broadcast a rectangular tensor to the common shape `(N, K)`: a size-1
dimension is repeated along the other tensor's size. -/
def bcMat (N K : ℕ) (m : Mat α) : Mat α :=
  (if m.length == N then m else List.replicate N m.headI).map (bcRow K)

/-- `torch.ones(m.shape).sum()`: the number of entries of `m`. -/
def numEntries (m : Mat α) : ℕ :=
  (m.map List.length).sum

/-- The number of mismatching positions of two rows: one row of
`(y_pred.float() != y_true)`, summed. -/
def countMismatch [DecidableEq α] (r s : List α) : ℕ :=
  (r.zip s).countP fun p => decide (p.1 ≠ p.2)

/-- `(y_pred.float() != y_true).sum()`: the total number of mismatching
positions of two equally shaped tensors. -/
def mismatches [DecidableEq α] (a b : Mat α) : ℕ :=
  ((a.zip b).map fun rs => countMismatch rs.1 rs.2).sum

/-- `if sigmoid: y_pred = y_pred.sigmoid()` — apply the sigmoid map `σfn`
elementwise when the flag is set.  The actual logistic function is supplied
at the call site (`sigmoidR` below for the real-valued instance). -/
def applySigmoid (σfn : α → α) (sigmoid : Bool) (m : Mat α) : Mat α :=
  if sigmoid then m.map (List.map σfn) else m

/-- `if threshold: y_pred = y_pred > threshold` — Python's truthiness test
skips the binarization exactly when the threshold equals 0; otherwise every
entry becomes 1 when strictly above the threshold, else 0 (the booleans are
later read back as floats by `.float()`). -/
def applyThreshold [DecidableEq α] (threshold : α) (m : Mat α) : Mat α :=
  if threshold = 0 then m
  else m.map (List.map fun x => if threshold < x then (1 : α) else 0)

/-- `hamming_accuracy(y_pred, y_true, threshold, sigmoid)`:
`1 - ((y_pred.float() != y_true).sum() / torch.ones(y_pred.shape).sum())`
after the optional sigmoid and thresholding steps.  The comparison
broadcasts both operands to the common shape and raises only for
non-broadcastable shapes; the denominator counts the entries of `y_pred`
itself (its own, pre-broadcast shape). -/
def hamming_accuracy [DecidableEq α] (σfn : α → α) (y_pred y_true : Mat α)
    (threshold : α) (sigmoid : Bool) : Except String α :=
  let p := applyThreshold threshold (applySigmoid σfn sigmoid y_pred)
  if broadcastCompat p y_true then
    let N := max p.length y_true.length
    let K := max p.headI.length y_true.headI.length
    Except.ok (1 - (mismatches (bcMat N K p) (bcMat N K y_true) : α) / (numEntries p : α))
  else
    Except.error "tensor size mismatch"

/-- `zero_one_accuracy(y_pred, y_true, threshold, sigmoid)`: the comparison
broadcasts like in `hamming_accuracy`, per-row mismatch counts are clamped
to 1 (`zero_one_preds[zero_one_preds >= 1] = 1`), summed, and divided by
the own row count of `y_pred` (`len(y_pred.reshape(-1, num_labels))` is the
row count of the rectangular, pre-broadcast `y_pred`). -/
def zero_one_accuracy [DecidableEq α] (σfn : α → α) (y_pred y_true : Mat α)
    (threshold : α) (sigmoid : Bool) : Except String α :=
  let p := applyThreshold threshold (applySigmoid σfn sigmoid y_pred)
  if broadcastCompat p y_true then
    let N := max p.length y_true.length
    let K := max p.headI.length y_true.headI.length
    let zero_one_preds := (((bcMat N K p).zip (bcMat N K y_true)).map
      fun rs => countMismatch rs.1 rs.2).map fun m => if 1 ≤ m then 1 else m
    Except.ok (1 - (zero_one_preds.sum : α) / (p.length : α))
  else
    Except.error "tensor size mismatch"

/-- The loop of `get_optimal_threshold`: the best threshold so far (initially
`None`) and the running maximum (initially `-np.inf`, modelled as `⊥` in
`WithBot α`); a candidate replaces the best exactly when its score is
strictly greater than the running maximum.  An error raised by the metric
function aborts the scan. -/
def optimal_threshold_loop [DecidableEq α]
    (metric_function : Mat α → Mat α → α → Bool → Except String α)
    (y_pred y_true : Mat α) :
    List α → Option α → WithBot α → Except String (Option α)
  | [], optimal, _ => Except.ok optimal
  | t :: ts, optimal, metric_max =>
    match metric_function y_pred y_true t false with
    | Except.error e => Except.error e
    | Except.ok metric =>
      if metric_max < (metric : WithBot α) then
        optimal_threshold_loop metric_function y_pred y_true ts (some t) (metric : WithBot α)
      else
        optimal_threshold_loop metric_function y_pred y_true ts optimal metric_max

/-- `get_optimal_threshold(metric_function, y_pred, y_true, thresholds)`.
The metric is called with only the threshold keyword, so its sigmoid flag
keeps its default `False`.  The returned `Option` is the final value of the
Python variable `optimal_threshold` (`none` = Python `None`). -/
def get_optimal_threshold [DecidableEq α]
    (metric_function : Mat α → Mat α → α → Bool → Except String α)
    (y_pred y_true : Mat α) (thresholds : List α) : Except String (Option α) :=
  optimal_threshold_loop metric_function y_pred y_true thresholds none ⊥

end Defs

/-- The logistic sigmoid used by `y_pred.sigmoid()`. -/
noncomputable def sigmoidR (x : ℝ) : ℝ :=
  1 / (1 + Real.exp (-x))

/-- The default of the `threshold` parameter of `hamming_accuracy` and
`zero_one_accuracy` in the source: `0.2`. -/
def default_threshold : ℚ := 1 / 5

/-- The default of the `sigmoid` parameter of both metric functions. -/
def default_sigmoid : Bool := false

/-- The default of the `thresholds` parameter of `get_optimal_threshold`:
`np.linspace(0, 1, 21)`, i.e. the 21 values `i / 20` for `i = 0, …, 20`,
endpoints included. -/
def default_thresholds : List ℚ :=
  (List.range 21).map fun i => (i : ℚ) / 20

/-- `hamming_accuracy` called with `threshold` and `sigmoid` omitted. -/
def hamming_accuracy_defaults (σfn : ℚ → ℚ) (y_pred y_true : Mat ℚ) : Except String ℚ :=
  hamming_accuracy σfn y_pred y_true default_threshold default_sigmoid

/-- `zero_one_accuracy` called with `threshold` and `sigmoid` omitted. -/
def zero_one_accuracy_defaults (σfn : ℚ → ℚ) (y_pred y_true : Mat ℚ) : Except String ℚ :=
  zero_one_accuracy σfn y_pred y_true default_threshold default_sigmoid

/-- `get_optimal_threshold` called with `thresholds` omitted. -/
def get_optimal_threshold_defaults
    (metric_function : Mat ℚ → Mat ℚ → ℚ → Bool → Except String ℚ)
    (y_pred y_true : Mat ℚ) : Except String (Option ℚ) :=
  get_optimal_threshold metric_function y_pred y_true default_thresholds

/-- Rectangularity: `m` has `n` rows of length `k` each. -/
def isRect {α : Type} (m : Mat α) (n k : ℕ) : Prop :=
  m.length = n ∧ ∀ r ∈ m, r.length = k

instance {α : Type} (m : Mat α) (n k : ℕ) : Decidable (isRect m n k) := by
  unfold isRect; infer_instance

/-- The number of rows whose prediction matches the ground truth exactly
(zero mismatching positions). -/
def correctRows {α : Type} [LinearOrderedField α] [DecidableEq α] (p y : Mat α) : ℕ :=
  (p.zip y).countP fun rs => decide (countMismatch rs.1 rs.2 = 0)

/-- The number of rows with at least one mismatching position. -/
def incorrectRows {α : Type} [LinearOrderedField α] [DecidableEq α] (p y : Mat α) : ℕ :=
  (p.zip y).countP fun rs => decide (countMismatch rs.1 rs.2 ≠ 0)

/-- Modelled from the spec: the binarization the spec describes — entry
positive iff strictly above the threshold — applied unconditionally, with no
exemption for a zero threshold.  For comparison with `applyThreshold`. -/
def specBinarize {α : Type} [LinearOrderedField α] (threshold : α) (m : Mat α) : Mat α :=
  m.map (List.map fun x => if threshold < x then (1 : α) else 0)

/-- The number of positions where two tensors agree. -/
def countMatches {α : Type} [LinearOrderedField α] [DecidableEq α] (a b : Mat α) : ℕ :=
  ((a.zip b).map fun rs => (rs.1.zip rs.2).countP fun p => decide (p.1 = p.2)).sum

/-- Modelled from the spec: the formula the spec states for hamming accuracy,
`1 - (count of positions where binarized P == Y) / (batch_size * num_labels)`.
For comparison with `hamming_accuracy`. -/
def specHammingFormula (y_pred y_true : Mat ℚ) (threshold : ℚ) : ℚ :=
  1 - (countMatches (specBinarize threshold y_pred) y_true : ℚ) / (numEntries y_pred : ℚ)

/-- Modelled from the spec: zero-one accuracy as the spec describes it —
binarize at the threshold unconditionally, a row is correct iff its mismatch
count is zero, result is correct rows over batch size.  For comparison with
`zero_one_accuracy`. -/
def specZeroOne (y_pred y_true : Mat ℚ) (threshold : ℚ) : ℚ :=
  (correctRows (specBinarize threshold y_pred) y_true : ℚ) / (y_pred.length : ℚ)

/-- The ground-truth matrix of the spec's concrete 4×3 scenario. -/
def yTrueEx : Mat ℚ := [[1, 0, 0], [0, 1, 0], [1, 1, 0], [0, 0, 1]]

/-- A raw prediction matrix that binarizes at threshold 1/2 to the
post-threshold matrix of the spec's concrete 4×3 scenario
(`[[1,0,0],[0,1,0],[1,0,0],[0,0,1]]`). -/
def yPredEx : Mat ℚ :=
  [[9/10, 1/10, 1/10], [1/10, 9/10, 1/10], [9/10, 1/10, 1/10], [1/10, 1/10, 9/10]]

/-! ### Structural lemmas about shapes and counts -/

theorem isRect_map (f : ℚ → ℚ) (m : Mat ℚ) (n k : ℕ) (h : isRect m n k) :
    isRect (m.map (List.map f)) n k := by
  obtain ⟨h1, h2⟩ := h
  refine ⟨by simpa using h1, ?_⟩
  intro r hr
  obtain ⟨s, hs, rfl⟩ := List.mem_map.mp hr
  simpa using h2 s hs

theorem isRect_applySigmoid (σfn : ℚ → ℚ) (s : Bool) (m : Mat ℚ) (n k : ℕ)
    (h : isRect m n k) : isRect (applySigmoid σfn s m) n k := by
  cases s
  · exact h
  · exact isRect_map _ _ _ _ h

theorem isRect_applyThreshold (t : ℚ) (m : Mat ℚ) (n k : ℕ)
    (h : isRect m n k) : isRect (applyThreshold t m) n k := by
  unfold applyThreshold
  split
  · exact h
  · exact isRect_map _ _ _ _ h

theorem isRectB_of_isRect (m : Mat ℚ) (n k : ℕ) (h : isRect m n k) :
    isRectB m = true := by
  rw [isRectB, List.all_eq_true]
  intro r hr
  cases m with
  | nil => cases hr
  | cons r0 m2 =>
    have h0 := h.2 r0 (List.mem_cons_self r0 m2)
    have hrl := h.2 r hr
    simp [List.headI, h0, hrl]

theorem eq_nil_of_isRect_zero (m : Mat ℚ) (k : ℕ) (h : isRect m 0 k) : m = [] :=
  List.length_eq_zero.mp h.1

theorem headI_length_of_isRect (m : Mat ℚ) (n k : ℕ) (h : isRect m n k) (hn : 0 < n) :
    m.headI.length = k := by
  cases m with
  | nil =>
    rw [← h.1] at hn
    cases hn
  | cons r0 m2 => exact h.2 r0 (List.mem_cons_self r0 m2)

theorem headI_length_eq (p y : Mat ℚ) (n k : ℕ) (hp : isRect p n k) (hy : isRect y n k) :
    p.headI.length = y.headI.length := by
  rcases Nat.eq_zero_or_pos n with hn | hn
  · subst hn
    rw [eq_nil_of_isRect_zero p k hp, eq_nil_of_isRect_zero y k hy]
  · rw [headI_length_of_isRect p n k hp hn, headI_length_of_isRect y n k hy hn]

theorem broadcastCompat_of_isRect (a b : Mat ℚ) (n k : ℕ)
    (ha : isRect a n k) (hb : isRect b n k) : broadcastCompat a b = true := by
  unfold broadcastCompat dimsCompat
  rw [isRectB_of_isRect a n k ha, isRectB_of_isRect b n k hb,
    ha.1, hb.1, headI_length_eq a b n k ha hb]
  simp

theorem map_bcRow_self (k : ℕ) :
    ∀ m : Mat ℚ, (∀ r ∈ m, r.length = k) → m.map (bcRow k) = m
  | [], _ => rfl
  | r :: m2, h => by
    have h0 := h r (List.mem_cons_self r m2)
    have hm := fun s hs => h s (List.mem_cons_of_mem r hs)
    simp [bcRow, h0, map_bcRow_self k m2 hm]

theorem bcMat_self (m : Mat ℚ) (n k : ℕ) (h : isRect m n k) :
    bcMat m.length m.headI.length m = m := by
  unfold bcMat
  rw [if_pos (by simp)]
  cases m with
  | nil => rfl
  | cons r0 m2 =>
    have hh : (r0 :: m2).headI = r0 := rfl
    rw [hh]
    refine map_bcRow_self r0.length (r0 :: m2) fun r hr => ?_
    rw [h.2 r hr, ← h.2 r0 (List.mem_cons_self r0 m2)]

theorem numEntries_of_isRect (m : Mat ℚ) (n k : ℕ) (h : isRect m n k) :
    numEntries m = n * k := by
  obtain ⟨h1, h2⟩ := h
  subst h1
  induction m with
  | nil => simp [numEntries]
  | cons r m ih =>
    have hr := h2 r (List.mem_cons_self r m)
    have hm : ∀ s ∈ m, s.length = k := fun s hs => h2 s (List.mem_cons_of_mem r hs)
    simp only [numEntries, List.map_cons, List.sum_cons, List.length_cons] at ih ⊢
    rw [hr, ih hm]
    ring

theorem countMismatch_self (r : List ℚ) : countMismatch r r = 0 := by
  induction r with
  | nil => rfl
  | cons a r ih => simpa [countMismatch, List.countP_cons] using ih

theorem mismatches_self (m : Mat ℚ) : mismatches m m = 0 := by
  induction m with
  | nil => rfl
  | cons r m ih => simpa [mismatches, countMismatch_self, List.countP_cons] using ih

theorem correctRows_self (m : Mat ℚ) : correctRows m m = m.length := by
  unfold correctRows
  rw [List.countP_eq_length.mpr, List.length_zip, Nat.min_self]
  intro rs hrs
  have h12 : rs.1 = rs.2 := by
    induction m with
    | nil => cases hrs
    | cons r m ih =>
      rcases List.mem_cons.mp hrs with h | h
      · rw [h]
      · exact ih h
  simp [h12, countMismatch_self]

theorem clamp_sum_eq_countP (l : List ℕ) :
    (l.map fun m => if 1 ≤ m then 1 else m).sum = l.countP fun m => decide (m ≠ 0) := by
  induction l with
  | nil => rfl
  | cons a l ih =>
    cases a
    · simp [List.countP_cons, ih]
    · simp [List.countP_cons, ih]
      omega

theorem countP_complement (l : List (List ℚ × List ℚ)) :
    (l.countP fun rs => decide (countMismatch rs.1 rs.2 ≠ 0)) +
      (l.countP fun rs => decide (countMismatch rs.1 rs.2 = 0)) = l.length := by
  have h := List.length_eq_countP_add_countP (fun rs : List ℚ × List ℚ =>
    decide (countMismatch rs.1 rs.2 ≠ 0)) l
  rw [h]
  congr 1
  refine List.countP_congr fun rs _ => ?_
  by_cases hc : countMismatch rs.1 rs.2 = 0 <;> simp [hc]

/-! ### Evaluation lemmas for the two metrics on rectangular inputs -/

theorem hamming_accuracy_ok (σfn : ℚ → ℚ) (P Y : Mat ℚ) (t : ℚ) (s : Bool) (n k : ℕ)
    (hP : isRect P n k) (hY : isRect Y n k) :
    hamming_accuracy σfn P Y t s =
      Except.ok (1 - (mismatches (applyThreshold t (applySigmoid σfn s P)) Y : ℚ) /
        ((n : ℚ) * (k : ℚ))) := by
  have hrect : isRect (applyThreshold t (applySigmoid σfn s P)) n k :=
    isRect_applyThreshold _ _ _ _ (isRect_applySigmoid _ _ _ _ _ hP)
  unfold hamming_accuracy
  rw [if_pos (by exact_mod_cast broadcastCompat_of_isRect _ _ n k hrect hY)]
  dsimp only
  set p := applyThreshold t (applySigmoid σfn s P) with hp
  have hN : max p.length Y.length = p.length := by
    rw [hrect.1, hY.1]
    exact max_self n
  have hK : max p.headI.length Y.headI.length = p.headI.length := by
    rw [headI_length_eq p Y n k hrect hY]
    exact max_self _
  have hbcp : bcMat (max p.length Y.length) (max p.headI.length Y.headI.length) p = p := by
    rw [hN, hK]
    exact bcMat_self p n k hrect
  have hbcy : bcMat (max p.length Y.length) (max p.headI.length Y.headI.length) Y = Y := by
    rw [hN, hK, show p.length = Y.length by rw [hrect.1, hY.1],
      headI_length_eq p Y n k hrect hY]
    exact bcMat_self Y n k hY
  rw [hbcp, hbcy, numEntries_of_isRect _ _ _ hrect]
  push_cast
  rfl

theorem zero_one_accuracy_ok (σfn : ℚ → ℚ) (P Y : Mat ℚ) (t : ℚ) (s : Bool) (n k : ℕ)
    (hP : isRect P n k) (hY : isRect Y n k) (hn : 0 < n) :
    zero_one_accuracy σfn P Y t s =
      Except.ok ((correctRows (applyThreshold t (applySigmoid σfn s P)) Y : ℚ) / (n : ℚ)) := by
  have hrect : isRect (applyThreshold t (applySigmoid σfn s P)) n k :=
    isRect_applyThreshold _ _ _ _ (isRect_applySigmoid _ _ _ _ _ hP)
  unfold zero_one_accuracy
  rw [if_pos (by exact_mod_cast broadcastCompat_of_isRect _ _ n k hrect hY)]
  dsimp only
  set p := applyThreshold t (applySigmoid σfn s P) with hp
  have hN : max p.length Y.length = p.length := by
    rw [hrect.1, hY.1]
    exact max_self n
  have hK : max p.headI.length Y.headI.length = p.headI.length := by
    rw [headI_length_eq p Y n k hrect hY]
    exact max_self _
  have hbcp : bcMat (max p.length Y.length) (max p.headI.length Y.headI.length) p = p := by
    rw [hN, hK]
    exact bcMat_self p n k hrect
  have hbcy : bcMat (max p.length Y.length) (max p.headI.length Y.headI.length) Y = Y := by
    rw [hN, hK, show p.length = Y.length by rw [hrect.1, hY.1],
      headI_length_eq p Y n k hrect hY]
    exact bcMat_self Y n k hY
  rw [hbcp, hbcy]
  have hsum : ((List.map (fun rs => countMismatch rs.1 rs.2) (p.zip Y)).map
      fun m => if 1 ≤ m then 1 else m).sum = incorrectRows p Y := by
    rw [clamp_sum_eq_countP, List.countP_map]
    rfl
  have hlen : (p.zip Y).length = n := by
    rw [List.length_zip, hrect.1, hY.1, Nat.min_self]
  have hcompl : incorrectRows p Y + correctRows p Y = n := by
    rw [incorrectRows, correctRows, countP_complement, hlen]
  have hplen : p.length = n := hrect.1
  rw [hsum, hplen]
  have hnq : (n : ℚ) ≠ 0 := Nat.cast_ne_zero.mpr hn.ne'
  have hcast : (incorrectRows p Y : ℚ) = (n : ℚ) - (correctRows p Y : ℚ) := by
    have h2 : (incorrectRows p Y : ℚ) + (correctRows p Y : ℚ) = (n : ℚ) := by
      exact_mod_cast hcompl
    linarith
  rw [hcast]
  congr 1
  field_simp

/-! ### The threshold scan computes the earliest maximiser -/

theorem loop_firstMax (f : Mat ℚ → Mat ℚ → ℚ → Bool → Except String ℚ)
    (P Y : Mat ℚ) (g : ℚ → ℚ) :
    ∀ (ts : List ℚ) (b : ℚ), (∀ t ∈ ts, f P Y t false = Except.ok (g t)) →
    ∃ u l1 l2,
      optimal_threshold_loop f P Y ts (some b) ((g b : ℚ) : WithBot ℚ) = Except.ok (some u) ∧
      b :: ts = l1 ++ u :: l2 ∧ (∀ v ∈ b :: ts, g v ≤ g u) ∧ ∀ v ∈ l1, g v < g u := by
  intro ts
  induction ts with
  | nil =>
    intro b _
    refine ⟨b, [], [], rfl, rfl, ?_, by simp⟩
    intro v hv
    rw [List.mem_singleton.mp hv]
  | cons a ts ih =>
    intro b h
    have ha : f P Y a false = Except.ok (g a) := h a (List.mem_cons_self a ts)
    by_cases hlt : g b < g a
    · obtain ⟨u, l1, l2, hrun, hdec, hmax, hpre⟩ :=
        ih a fun t ht => h t (List.mem_cons_of_mem a ht)
      have hau : g a ≤ g u := hmax a (List.mem_cons_self a ts)
      refine ⟨u, b :: l1, l2, ?_, ?_, ?_, ?_⟩
      · simp only [optimal_threshold_loop, ha]
        rw [if_pos (WithBot.coe_lt_coe.mpr hlt)]
        exact hrun
      · rw [List.cons_append]
        exact congrArg (List.cons b) hdec
      · intro v hv
        rcases List.mem_cons.mp hv with rfl | hv2
        · exact le_of_lt (lt_of_lt_of_le hlt hau)
        · exact hmax v hv2
      · intro v hv
        rcases List.mem_cons.mp hv with rfl | hv2
        · exact lt_of_lt_of_le hlt hau
        · exact hpre v hv2
    · obtain ⟨u, l1, l2, hrun, hdec, hmax, hpre⟩ :=
        ih b fun t ht => h t (List.mem_cons_of_mem a ht)
      have hrun2 : optimal_threshold_loop f P Y (a :: ts) (some b) ((g b : ℚ) : WithBot ℚ) =
          Except.ok (some u) := by
        simp only [optimal_threshold_loop, ha]
        rw [if_neg fun hc => hlt (WithBot.coe_lt_coe.mp hc)]
        exact hrun
      have hab : g a ≤ g b := not_lt.mp hlt
      cases l1 with
      | nil =>
        have hu : b = u ∧ ts = l2 := by simpa using hdec
        have hgbu : g b ≤ g u := le_of_eq (congrArg g hu.1)
        refine ⟨u, [], a :: ts, hrun2, by simp [← hu.1], ?_, by simp⟩
        intro v hv
        rcases List.mem_cons.mp hv with rfl | hv2
        · exact hgbu
        · rcases List.mem_cons.mp hv2 with rfl | hv3
          · exact le_trans hab hgbu
          · exact hmax v (List.mem_cons_of_mem b hv3)
      | cons b' l1' =>
        have hbb : b = b' ∧ ts = l1' ++ u :: l2 := by simpa using hdec
        have hblt : g b < g u := hpre b (hbb.1 ▸ List.mem_cons_self b l1')
        refine ⟨u, b :: a :: l1', l2, hrun2, ?_, ?_, ?_⟩
        · rw [hbb.2]
          simp
        · intro v hv
          rcases List.mem_cons.mp hv with rfl | hv2
          · exact hmax v (List.mem_cons_self v ts)
          · rcases List.mem_cons.mp hv2 with rfl | hv3
            · exact le_trans hab (le_of_lt hblt)
            · exact hmax v (List.mem_cons_of_mem b hv3)
        · intro v hv
          rcases List.mem_cons.mp hv with rfl | hv2
          · exact hblt
          · rcases List.mem_cons.mp hv2 with rfl | hv3
            · exact lt_of_le_of_lt hab hblt
            · exact hpre v (hbb.1 ▸ List.mem_cons_of_mem b' hv3)

theorem applyThreshold_of_ne (t : ℚ) (m : Mat ℚ) (ht : t ≠ 0) :
    applyThreshold t m = specBinarize t m := by
  unfold applyThreshold specBinarize
  rw [if_neg ht]

theorem applyThreshold_zero (m : Mat ℚ) : applyThreshold (0 : ℚ) m = m := by
  unfold applyThreshold
  rw [if_pos rfl]

/-! ### Claims -/

/-- Claim C1, counterexample: on the spec's own 4×3 scenario at threshold 1/2,
`hamming_accuracy` returns 11/12, while the formula the claim states —
`1 - (count of positions where binarized P == Y) / (n * k)` — evaluates to
1/12 there; the function does not compute the claimed mismatch-rate formula. -/
theorem c1_counterexample :
    hamming_accuracy (fun x => x) yPredEx yTrueEx (1/2) false = Except.ok (11/12) ∧
    specHammingFormula yPredEx yTrueEx (1/2) = 1/12 ∧
    (11 : ℚ)/12 ≠ 1/12 := by
  refine ⟨?_, ?_, by norm_num⟩
  · norm_num [hamming_accuracy, applyThreshold, applySigmoid, broadcastCompat, isRectB, dimsCompat, bcMat, bcRow, List.headI, List.headD, List.replicate, mismatches,
      countMismatch, numEntries, yPredEx, yTrueEx]
  · norm_num [specHammingFormula, countMatches, specBinarize, yPredEx, yTrueEx, numEntries]

/-- Claim C1 (amended): for rectangular P, Y of shape (n, k) with n·k > 0 and a
nonzero threshold t, `hamming_accuracy` equals the elementwise match rate
`1 - (count of positions where binarized P != Y) / (n * k)` — binarization
being the strict comparison `score > t` — and it returns 1 exactly when no
position mismatches, i.e. every label decision for every sample is correct. -/
theorem c1_hamming_match_rate (σfn : ℚ → ℚ) (P Y : Mat ℚ) (t : ℚ) (n k : ℕ)
    (hP : isRect P n k) (hY : isRect Y n k) (ht : t ≠ 0) (hnk : 0 < n * k) :
    hamming_accuracy σfn P Y t false =
      Except.ok (1 - (mismatches (specBinarize t P) Y : ℚ) / ((n : ℚ) * (k : ℚ))) ∧
    (hamming_accuracy σfn P Y t false = Except.ok 1 ↔
      mismatches (specBinarize t P) Y = 0) := by
  have h1 := hamming_accuracy_ok σfn P Y t false n k hP hY
  have h0 : applySigmoid σfn false P = P := rfl
  rw [h0, applyThreshold_of_ne t P ht] at h1
  have hnkq : (n : ℚ) * (k : ℚ) ≠ 0 := by
    have h2 : ((n * k : ℕ) : ℚ) ≠ 0 := Nat.cast_ne_zero.mpr hnk.ne'
    push_cast at h2
    exact h2
  refine ⟨h1, ?_, ?_⟩
  · intro h2
    rw [h1] at h2
    have h3 : 1 - (mismatches (specBinarize t P) Y : ℚ) / ((n : ℚ) * k) = 1 := by
      simpa using h2
    have h4 : (mismatches (specBinarize t P) Y : ℚ) / ((n : ℚ) * k) = 0 := by linarith
    rcases div_eq_zero_iff.mp h4 with h5 | h5
    · exact_mod_cast h5
    · exact absurd h5 hnkq
  · intro h2
    rw [h1, h2]
    norm_num

/-- Witness for C1: the amended statement instantiated on the spec's 4×3
scenario at threshold 1/2 (shape hypotheses discharged by computation). -/
theorem c1_witness :
    hamming_accuracy (fun x => x) yPredEx yTrueEx (1/2) false =
      Except.ok (1 - (mismatches (specBinarize (1/2) yPredEx) yTrueEx : ℚ) /
        ((4 : ℚ) * (3 : ℚ))) ∧
    (hamming_accuracy (fun x => x) yPredEx yTrueEx (1/2) false = Except.ok 1 ↔
      mismatches (specBinarize (1/2) yPredEx) yTrueEx = 0) :=
  c1_hamming_match_rate (fun x => x) yPredEx yTrueEx (1/2) 4 3
    (by decide) (by decide) (by norm_num) (by norm_num)

/-- Claim C2, counterexample: at threshold 0 the code does not binarize, so on
P = [[0.7]], Y = [[1]] it compares 0.7 to 1 directly and returns 0, while the
claimed behavior (binarize at 0: 0.7 > 0 gives 1, matching Y) yields 1. -/
theorem c2_counterexample :
    zero_one_accuracy (fun x => x) [[(7:ℚ)/10]] [[(1:ℚ)]] 0 false = Except.ok 0 ∧
    specZeroOne [[(7:ℚ)/10]] [[(1:ℚ)]] 0 = 1 ∧
    (0 : ℚ) ≠ 1 := by
  refine ⟨?_, ?_, by norm_num⟩
  · norm_num [zero_one_accuracy, applyThreshold, applySigmoid, broadcastCompat, isRectB, dimsCompat, bcMat, bcRow, List.headI, List.headD, List.replicate, countMismatch]
  · norm_num [specZeroOne, specBinarize, correctRows, countMismatch]

/-- Claim C2 (amended): for rectangular P, Y of shape (n, k) with n > 0 and a
nonzero threshold t, `zero_one_accuracy` binarizes P at t (strict comparison),
calls a row correct iff its mismatch count against the ground-truth row is
zero, and returns (count of correct rows) / n; a row equal to its ground-truth
row (in particular all-zero against all-zero) has zero mismatches and so
counts as correct. -/
theorem c2_zero_one_formula (σfn : ℚ → ℚ) (P Y : Mat ℚ) (t : ℚ) (n k : ℕ)
    (hP : isRect P n k) (hY : isRect Y n k) (ht : t ≠ 0) (hn : 0 < n) :
    zero_one_accuracy σfn P Y t false =
      Except.ok ((correctRows (specBinarize t P) Y : ℚ) / (n : ℚ)) ∧
    ∀ r : List ℚ, countMismatch r r = 0 := by
  have h1 := zero_one_accuracy_ok σfn P Y t false n k hP hY hn
  have h0 : applySigmoid σfn false P = P := rfl
  rw [h0, applyThreshold_of_ne t P ht] at h1
  exact ⟨h1, countMismatch_self⟩

/-- Witness for C2: a 2×2 instance at threshold 1/2 whose first sample has no
true and no predicted labels (all-zero row) and is counted correct. -/
theorem c2_witness :
    zero_one_accuracy (fun x => x) [[(1:ℚ)/10, 1/10], [9/10, 1/10]]
        [[(0:ℚ), 0], [1, 1]] (1/2) false =
      Except.ok ((correctRows (specBinarize (1/2) [[(1:ℚ)/10, 1/10], [9/10, 1/10]])
        [[(0:ℚ), 0], [1, 1]] : ℚ) / (2 : ℚ)) ∧
    ∀ r : List ℚ, countMismatch r r = 0 :=
  c2_zero_one_formula (fun x => x) [[(1:ℚ)/10, 1/10], [9/10, 1/10]] [[(0:ℚ), 0], [1, 1]]
    (1/2) 2 2 (by decide) (by decide) (by norm_num) (by norm_num)

/-- Claim C3: when every candidate evaluates successfully (the scan passes only
the threshold, leaving the metric's sigmoid flag false), the linear scan with
running maximum initialized to `-inf` and strict `>` comparison returns the
earliest candidate attaining the maximal score — the threshold value itself,
not the score; in particular a singleton candidate list always yields its
candidate, whatever its score. -/
theorem c3_threshold_scan (f : Mat ℚ → Mat ℚ → ℚ → Bool → Except String ℚ)
    (P Y : Mat ℚ) (g : ℚ → ℚ) (ts : List ℚ) (hne : ts ≠ [])
    (hok : ∀ t ∈ ts, f P Y t false = Except.ok (g t)) :
    (∃ u l1 l2, get_optimal_threshold f P Y ts = Except.ok (some u) ∧
      ts = l1 ++ u :: l2 ∧ (∀ v ∈ ts, g v ≤ g u) ∧ ∀ v ∈ l1, g v < g u) ∧
    ∀ (t m : ℚ), f P Y t false = Except.ok m →
      get_optimal_threshold f P Y [t] = Except.ok (some t) := by
  constructor
  · obtain ⟨a, ts', rfl⟩ := List.exists_cons_of_ne_nil hne
    have ha : f P Y a false = Except.ok (g a) := hok a (List.mem_cons_self a ts')
    obtain ⟨u, l1, l2, hrun, hdec, hmax, hpre⟩ :=
      loop_firstMax f P Y g ts' a fun t ht => hok t (List.mem_cons_of_mem a ht)
    refine ⟨u, l1, l2, ?_, hdec, hmax, hpre⟩
    unfold get_optimal_threshold
    simp only [optimal_threshold_loop, ha]
    rw [if_pos (WithBot.bot_lt_coe (g a))]
    exact hrun
  · intro t m hm
    unfold get_optimal_threshold
    simp [optimal_threshold_loop, hm]

/-- Witness for C3: a two-candidate scan with the metric that scores each
threshold by its own value; the scan returns the first candidate 3/4, the
maximum, and the singleton clause holds as well. -/
theorem c3_witness :
    (∃ u l1 l2,
      get_optimal_threshold (fun _ _ t _ => Except.ok t) [[(1:ℚ)]] [[(1:ℚ)]]
          [(3:ℚ)/4, 1/4] = Except.ok (some u) ∧
      [(3:ℚ)/4, 1/4] = l1 ++ u :: l2 ∧
      (∀ v ∈ [(3:ℚ)/4, 1/4], (fun t : ℚ => t) v ≤ (fun t : ℚ => t) u) ∧
      ∀ v ∈ l1, (fun t : ℚ => t) v < (fun t : ℚ => t) u) ∧
    ∀ (t m : ℚ), (fun _ _ t _ => Except.ok t : Mat ℚ → Mat ℚ → ℚ → Bool →
        Except String ℚ) [[(1:ℚ)]] [[(1:ℚ)]] t false = Except.ok m →
      get_optimal_threshold (fun _ _ t _ => Except.ok t) [[(1:ℚ)]] [[(1:ℚ)]] [t] =
        Except.ok (some t) :=
  c3_threshold_scan (fun _ _ t _ => Except.ok t) [[(1:ℚ)]] [[(1:ℚ)]] (fun t => t)
    [(3:ℚ)/4, 1/4] (List.cons_ne_nil _ _) (fun _ _ => rfl)

/-- Claim C4, counterexample: called with an empty candidate sequence the
function does not fail; it runs the empty loop and returns the initial
`optimal_threshold = None` — an `ok` result carrying no threshold. -/
theorem c4_counterexample :
    get_optimal_threshold (hamming_accuracy (fun x => x)) [[(1:ℚ)]] [[(1:ℚ)]] [] =
      Except.ok none := rfl

/-- Claim C4 (amended): for every metric function and every pair of matrices,
`get_optimal_threshold` on an empty candidate sequence silently returns the
unset `optimal_threshold`, i.e. Python `None`, rather than raising an
invalid-argument error. -/
theorem c4_empty_returns_none (f : Mat ℚ → Mat ℚ → ℚ → Bool → Except String ℚ)
    (P Y : Mat ℚ) : get_optimal_threshold f P Y [] = Except.ok none := rfl

/-- Claim C5, counterexample: the omitted-threshold default is 0.2, not 0.5,
and the two behave differently: a score of 0.3 against true label 1 yields
accuracy 1 under the default (0.3 > 0.2) but 0 at threshold 0.5. -/
theorem c5_counterexample :
    default_threshold ≠ 1/2 ∧
    hamming_accuracy_defaults (fun x => x) [[(3:ℚ)/10]] [[(1:ℚ)]] = Except.ok 1 ∧
    hamming_accuracy (fun x => x) [[(3:ℚ)/10]] [[(1:ℚ)]] (1/2) false = Except.ok 0 := by
  refine ⟨by norm_num [default_threshold], ?_, ?_⟩
  · norm_num [hamming_accuracy_defaults, default_threshold, default_sigmoid, hamming_accuracy,
      applyThreshold, applySigmoid, broadcastCompat, isRectB, dimsCompat, bcMat, bcRow, List.headI, List.headD, List.replicate, mismatches, countMismatch, numEntries]
  · norm_num [hamming_accuracy, applyThreshold, applySigmoid, broadcastCompat, isRectB, dimsCompat, bcMat, bcRow, List.headI, List.headD, List.replicate, mismatches,
      countMismatch, numEntries]

/-- Claim C5 (amended): when the caller omits the threshold argument both
metric functions use 0.2 (= 1/5), and when the caller omits the sigmoid flag
it defaults to false. -/
theorem c5_defaults :
    default_threshold = 1/5 ∧ default_sigmoid = false ∧
    (∀ (σfn : ℚ → ℚ) (P Y : Mat ℚ),
      hamming_accuracy_defaults σfn P Y = hamming_accuracy σfn P Y (1/5) false) ∧
    ∀ (σfn : ℚ → ℚ) (P Y : Mat ℚ),
      zero_one_accuracy_defaults σfn P Y = zero_one_accuracy σfn P Y (1/5) false :=
  ⟨rfl, rfl, fun _ _ _ => rfl, fun _ _ _ => rfl⟩

/-- Explicit form of the default candidate grid `np.linspace(0, 1, 21)`. -/
theorem default_thresholds_eq :
    default_thresholds = [0, 1/20, 1/10, 3/20, 1/5, 1/4, 3/10, 7/20, 2/5, 9/20, 1/2,
      11/20, 3/5, 13/20, 7/10, 3/4, 4/5, 17/20, 9/10, 19/20, 1] := by
  norm_num [default_thresholds, List.range_succ]

/-- Claim C6, counterexample: the default candidate sequence has 21 values,
not 10, and it contains both endpoints 0 and 1, so it does not cover the open
interval (0, 1) exclusively. -/
theorem c6_counterexample :
    default_thresholds.length = 21 ∧ default_thresholds.length ≠ 10 ∧
    (0:ℚ) ∈ default_thresholds ∧ (1:ℚ) ∈ default_thresholds := by
  rw [default_thresholds_eq]
  norm_num

/-- Claim C6 (amended): when the caller omits the candidate sequence,
`get_optimal_threshold` uses `np.linspace(0, 1, 21)` — 21 evenly spaced
values with step 1/20 from 0 to 1, endpoints included. -/
theorem c6_default_grid :
    default_thresholds = [0, 1/20, 1/10, 3/20, 1/5, 1/4, 3/10, 7/20, 2/5, 9/20, 1/2,
      11/20, 3/5, 13/20, 7/10, 3/4, 4/5, 17/20, 9/10, 19/20, 1] ∧
    ∀ (f : Mat ℚ → Mat ℚ → ℚ → Bool → Except String ℚ) (P Y : Mat ℚ),
      get_optimal_threshold_defaults f P Y = get_optimal_threshold f P Y default_thresholds :=
  ⟨default_thresholds_eq, fun _ _ _ => rfl⟩

/-- Claim C7: binarization in both metrics is the strict comparison
`score > threshold` (for any nonzero threshold, a single score against true
label 1 scores 1 iff it is strictly above the threshold), and with the sigmoid
flag set, a raw score of 0 at threshold 1/2 gives sigmoid(0) = 1/2, which is
not `> 1/2` and therefore binarizes to 0 — matching a true label of 0 and
mismatching a true label of 1, in both metric functions. -/
theorem c7_strict_binarization :
    (∀ (σfn : ℚ → ℚ) (t x : ℚ), t ≠ 0 →
      hamming_accuracy σfn [[x]] [[(1:ℚ)]] t false =
        Except.ok (if t < x then 1 else 0) ∧
      zero_one_accuracy σfn [[x]] [[(1:ℚ)]] t false =
        Except.ok (if t < x then 1 else 0)) ∧
    hamming_accuracy sigmoidR [[(0:ℝ)]] [[(0:ℝ)]] (1/2) true = Except.ok 1 ∧
    hamming_accuracy sigmoidR [[(0:ℝ)]] [[(1:ℝ)]] (1/2) true = Except.ok 0 ∧
    zero_one_accuracy sigmoidR [[(0:ℝ)]] [[(1:ℝ)]] (1/2) true = Except.ok 0 := by
  have hσ : sigmoidR 0 = 1/2 := by
    unfold sigmoidR
    rw [neg_zero, Real.exp_zero]
    norm_num
  refine ⟨?_, ?_, ?_, ?_⟩
  · intro σfn t x ht
    by_cases hlt : t < x
    · constructor
      · norm_num [hamming_accuracy, applySigmoid, applyThreshold, ht, hlt, broadcastCompat, isRectB, dimsCompat, bcMat, bcRow, List.headI, List.headD, List.replicate,
          mismatches, countMismatch, numEntries]
      · norm_num [zero_one_accuracy, applySigmoid, applyThreshold, ht, hlt, broadcastCompat, isRectB, dimsCompat, bcMat, bcRow, List.headI, List.headD, List.replicate,
          countMismatch]
    · constructor
      · norm_num [hamming_accuracy, applySigmoid, applyThreshold, ht, hlt, broadcastCompat, isRectB, dimsCompat, bcMat, bcRow, List.headI, List.headD, List.replicate,
          mismatches, countMismatch, numEntries]
      · norm_num [zero_one_accuracy, applySigmoid, applyThreshold, ht, hlt, broadcastCompat, isRectB, dimsCompat, bcMat, bcRow, List.headI, List.headD, List.replicate,
          countMismatch]
  · norm_num [hamming_accuracy, applyThreshold, applySigmoid, broadcastCompat, isRectB, dimsCompat, bcMat, bcRow, List.headI, List.headD, List.replicate, mismatches,
      countMismatch, numEntries, hσ]
  · norm_num [hamming_accuracy, applyThreshold, applySigmoid, broadcastCompat, isRectB, dimsCompat, bcMat, bcRow, List.headI, List.headD, List.replicate, mismatches,
      countMismatch, numEntries, hσ]
  · norm_num [zero_one_accuracy, applyThreshold, applySigmoid, broadcastCompat, isRectB, dimsCompat, bcMat, bcRow, List.headI, List.headD, List.replicate, countMismatch, hσ]

/-- Witness for C7: the knife-edge instance — a score exactly equal to the
threshold 1/2 binarizes to 0 (strictly-greater test), so both metrics score 0
against true label 1. -/
theorem c7_witness :
    hamming_accuracy (fun x => x) [[(1:ℚ)/2]] [[(1:ℚ)]] (1/2) false =
      Except.ok (if (1:ℚ)/2 < 1/2 then 1 else 0) ∧
    zero_one_accuracy (fun x => x) [[(1:ℚ)/2]] [[(1:ℚ)]] (1/2) false =
      Except.ok (if (1:ℚ)/2 < 1/2 then 1 else 0) :=
  c7_strict_binarization.1 (fun x => x) (1/2) (1/2) (by norm_num)

/-- Claim C8, counterexample: the shapes (1, 1) and (1, 2) are different but
broadcastable, and the code does not fail there — the comparison broadcasts
the prediction along the width, and both metrics return the value 0 with no
error (for P = [[1]] binarized at 1/2 against Y = [[1, 2]], the broadcast
row [1, 1] mismatches [1, 2] in one of one own entries). -/
theorem c8_counterexample :
    hamming_accuracy (fun x => x) [[(1:ℚ)]] [[(1:ℚ), 2]] (1/2) false = Except.ok 0 ∧
    zero_one_accuracy (fun x => x) [[(1:ℚ)]] [[(1:ℚ), 2]] (1/2) false = Except.ok 0 := by
  constructor
  · norm_num [hamming_accuracy, applyThreshold, applySigmoid, broadcastCompat, isRectB,
      dimsCompat, bcMat, bcRow, List.headI, List.replicate, mismatches, countMismatch,
      numEntries]
  · norm_num [zero_one_accuracy, applyThreshold, applySigmoid, broadcastCompat, isRectB,
      dimsCompat, bcMat, bcRow, List.headI, List.replicate, countMismatch]

/-- Claim C8 (amended): the source has no shape check of its own; the failure
comes from torch's elementwise comparison, which raises only for
non-broadcastable shapes.  For rectangular, nonempty inputs of shapes (n, k)
and (n2, k2): when some dimension pair is neither equal nor 1, both metrics
fail immediately with an invalid-argument error (the embedding is a pure
function, so there are no side effects); when every dimension pair is
compatible, no error is raised and a value is returned. -/
theorem c8_shape_mismatch (σfn : ℚ → ℚ) (P Y : Mat ℚ) (t : ℚ) (s : Bool)
    (n k n2 k2 : ℕ) (hP : isRect P n k) (hY : isRect Y n2 k2)
    (hn : 0 < n) (hn2 : 0 < n2) :
    (¬(dimsCompat n n2 = true ∧ dimsCompat k k2 = true) →
      (∃ e, hamming_accuracy σfn P Y t s = Except.error e) ∧
      ∃ e, zero_one_accuracy σfn P Y t s = Except.error e) ∧
    ((dimsCompat n n2 = true ∧ dimsCompat k k2 = true) →
      (∃ q, hamming_accuracy σfn P Y t s = Except.ok q) ∧
      ∃ q, zero_one_accuracy σfn P Y t s = Except.ok q) := by
  have hrect : isRect (applyThreshold t (applySigmoid σfn s P)) n k :=
    isRect_applyThreshold _ _ _ _ (isRect_applySigmoid _ _ _ _ _ hP)
  have hgate : broadcastCompat (applyThreshold t (applySigmoid σfn s P)) Y =
      (dimsCompat n n2 && dimsCompat k k2) := by
    unfold broadcastCompat
    rw [isRectB_of_isRect _ n k hrect, isRectB_of_isRect _ n2 k2 hY,
      hrect.1, hY.1, headI_length_of_isRect _ n k hrect hn,
      headI_length_of_isRect _ n2 k2 hY hn2]
    simp
  constructor
  · intro hnc
    have hgf : broadcastCompat (applyThreshold t (applySigmoid σfn s P)) Y = false := by
      rw [hgate]
      by_cases h1 : dimsCompat n n2 = true
      · by_cases h2 : dimsCompat k k2 = true
        · exact absurd ⟨h1, h2⟩ hnc
        · simp [Bool.eq_false_iff.mpr h2]
      · simp [Bool.eq_false_iff.mpr h1]
    constructor
    · refine ⟨"tensor size mismatch", ?_⟩
      unfold hamming_accuracy
      dsimp only
      rw [hgf]
      simp
    · refine ⟨"tensor size mismatch", ?_⟩
      unfold zero_one_accuracy
      dsimp only
      rw [hgf]
      simp
  · intro hc
    have hgt : broadcastCompat (applyThreshold t (applySigmoid σfn s P)) Y = true := by
      rw [hgate, hc.1, hc.2]
      rfl
    constructor
    · cases hres : hamming_accuracy σfn P Y t s with
      | ok q => exact ⟨q, rfl⟩
      | error e =>
        exfalso
        unfold hamming_accuracy at hres
        dsimp only at hres
        rw [hgt] at hres
        simp at hres
    · cases hres : zero_one_accuracy σfn P Y t s with
      | ok q => exact ⟨q, rfl⟩
      | error e =>
        exfalso
        unfold zero_one_accuracy at hres
        dsimp only at hres
        rw [hgt] at hres
        simp at hres

/-- Witness for C8: a (2, 1) prediction against a (3, 1) ground truth — row
counts 2 and 3 are neither equal nor 1, so the non-broadcastable branch
applies, and the compatible branch is available at the same shapes'
dimension test. -/
theorem c8_witness :
    (¬(dimsCompat 2 3 = true ∧ dimsCompat 1 1 = true) →
      (∃ e, hamming_accuracy (fun x => x) [[(1:ℚ)], [(2:ℚ)]]
        [[(1:ℚ)], [(2:ℚ)], [(3:ℚ)]] (1/2) false = Except.error e) ∧
      ∃ e, zero_one_accuracy (fun x => x) [[(1:ℚ)], [(2:ℚ)]]
        [[(1:ℚ)], [(2:ℚ)], [(3:ℚ)]] (1/2) false = Except.error e) ∧
    ((dimsCompat 2 3 = true ∧ dimsCompat 1 1 = true) →
      (∃ q, hamming_accuracy (fun x => x) [[(1:ℚ)], [(2:ℚ)]]
        [[(1:ℚ)], [(2:ℚ)], [(3:ℚ)]] (1/2) false = Except.ok q) ∧
      ∃ q, zero_one_accuracy (fun x => x) [[(1:ℚ)], [(2:ℚ)]]
        [[(1:ℚ)], [(2:ℚ)], [(3:ℚ)]] (1/2) false = Except.ok q) :=
  c8_shape_mismatch (fun x => x) [[(1:ℚ)], [(2:ℚ)]] [[(1:ℚ)], [(2:ℚ)], [(3:ℚ)]]
    (1/2) false 2 1 3 1 (by decide) (by decide) (by decide) (by decide)

/-- Claim C9: on rectangular matrices of shape (n, k) with n > 0, if the
(conditionally binarized) prediction equals the ground truth then both
accuracies are 1; and whenever `zero_one_accuracy` is 1, `hamming_accuracy`
is 1 as well for the same inputs. -/
theorem c9_perfect_match (σfn : ℚ → ℚ) (P Y : Mat ℚ) (t : ℚ) (s : Bool) (n k : ℕ)
    (hP : isRect P n k) (hY : isRect Y n k) (hn : 0 < n) :
    (applyThreshold t (applySigmoid σfn s P) = Y →
      hamming_accuracy σfn P Y t s = Except.ok 1 ∧
      zero_one_accuracy σfn P Y t s = Except.ok 1) ∧
    (zero_one_accuracy σfn P Y t s = Except.ok 1 →
      hamming_accuracy σfn P Y t s = Except.ok 1) := by
  have hham := hamming_accuracy_ok σfn P Y t s n k hP hY
  have hzo := zero_one_accuracy_ok σfn P Y t s n k hP hY hn
  have hnq : (n : ℚ) ≠ 0 := Nat.cast_ne_zero.mpr hn.ne'
  constructor
  · intro heq
    rw [heq] at hham hzo
    constructor
    · rw [hham, mismatches_self]
      norm_num
    · rw [hzo, correctRows_self, hY.1, div_self hnq]
  · intro h1
    rw [hzo] at h1
    have h2 : (correctRows (applyThreshold t (applySigmoid σfn s P)) Y : ℚ) / (n : ℚ) = 1 := by
      simpa using h1
    set p := applyThreshold t (applySigmoid σfn s P) with hp
    have hrectp : isRect p n k :=
      isRect_applyThreshold _ _ _ _ (isRect_applySigmoid _ _ _ _ _ hP)
    have h3 : (correctRows p Y : ℚ) = (n : ℚ) := by
      field_simp at h2
      exact_mod_cast h2
    have h4 : correctRows p Y = n := by exact_mod_cast h3
    have hlen : (p.zip Y).length = n := by
      rw [List.length_zip, hrectp.1, hY.1, Nat.min_self]
    have h6 : ((p.zip Y).countP fun rs => decide (countMismatch rs.1 rs.2 = 0)) =
        (p.zip Y).length := by
      rw [hlen]
      exact h4
    have h5 := List.countP_eq_length.mp h6
    have h7 : mismatches p Y = 0 := by
      unfold mismatches
      apply List.sum_eq_zero
      intro x hx
      obtain ⟨rs, hrs, rfl⟩ := List.mem_map.mp hx
      exact of_decide_eq_true (h5 rs hrs)
    rw [hham, h7]
    norm_num

/-- Witness for C9: a 1×1 instance where the binarized prediction equals the
ground truth, so both implications apply with their hypotheses discharged. -/
theorem c9_witness :
    (applyThreshold (1/2) (applySigmoid (fun x => x) false [[(9:ℚ)/10]]) = [[(1:ℚ)]] →
      hamming_accuracy (fun x => x) [[(9:ℚ)/10]] [[(1:ℚ)]] (1/2) false = Except.ok 1 ∧
      zero_one_accuracy (fun x => x) [[(9:ℚ)/10]] [[(1:ℚ)]] (1/2) false = Except.ok 1) ∧
    (zero_one_accuracy (fun x => x) [[(9:ℚ)/10]] [[(1:ℚ)]] (1/2) false = Except.ok 1 →
      hamming_accuracy (fun x => x) [[(9:ℚ)/10]] [[(1:ℚ)]] (1/2) false = Except.ok 1) :=
  c9_perfect_match (fun x => x) [[(9:ℚ)/10]] [[(1:ℚ)]] (1/2) false 1 1
    (by decide) (by decide) (by norm_num)

/-- Claim C10: a threshold of exactly 0 is falsy in Python, so no binarization
happens at all — the raw (or sigmoid-transformed) scores are compared to the
ground truth directly for equality — and in particular a candidate threshold 0
is not evaluated as `score > 0`: a raw 1/2 against true label 1 scores 0 under
the code, while thresholding at 0 would make it a match. -/
theorem c10_zero_threshold :
    (∀ m : Mat ℚ, applyThreshold (0:ℚ) m = m) ∧
    (∀ (σfn : ℚ → ℚ) (s : Bool) (P Y : Mat ℚ) (n k : ℕ),
      isRect P n k → isRect Y n k → 0 < n →
      hamming_accuracy σfn P Y 0 s =
        Except.ok (1 - (mismatches (applySigmoid σfn s P) Y : ℚ) / ((n:ℚ) * (k:ℚ))) ∧
      zero_one_accuracy σfn P Y 0 s =
        Except.ok ((correctRows (applySigmoid σfn s P) Y : ℚ) / (n:ℚ))) ∧
    hamming_accuracy (fun x => x) [[(1:ℚ)/2]] [[(1:ℚ)]] 0 false = Except.ok 0 ∧
    1 - (mismatches (specBinarize (0:ℚ) [[(1:ℚ)/2]]) [[(1:ℚ)]] : ℚ) / 1 = 1 := by
  refine ⟨applyThreshold_zero, ?_, ?_, ?_⟩
  · intro σfn s P Y n k hP hY hn
    have hham := hamming_accuracy_ok σfn P Y 0 s n k hP hY
    have hzo := zero_one_accuracy_ok σfn P Y 0 s n k hP hY hn
    rw [applyThreshold_zero] at hham hzo
    exact ⟨hham, hzo⟩
  · norm_num [hamming_accuracy, applyThreshold, applySigmoid, broadcastCompat, isRectB, dimsCompat, bcMat, bcRow, List.headI, List.headD, List.replicate, mismatches,
      countMismatch, numEntries]
  · norm_num [specBinarize, mismatches, countMismatch]

/-- Witness for C10: the no-binarization formulas instantiated on a concrete
1×1 input at threshold 0. -/
theorem c10_witness :
    hamming_accuracy (fun x => x) [[(7:ℚ)/10]] [[(1:ℚ)]] 0 false =
      Except.ok (1 - (mismatches (applySigmoid (fun x => x) false [[(7:ℚ)/10]])
        [[(1:ℚ)]] : ℚ) / ((1:ℚ) * (1:ℚ))) ∧
    zero_one_accuracy (fun x => x) [[(7:ℚ)/10]] [[(1:ℚ)]] 0 false =
      Except.ok ((correctRows (applySigmoid (fun x => x) false [[(7:ℚ)/10]])
        [[(1:ℚ)]] : ℚ) / (1:ℚ)) :=
  c10_zero_threshold.2.1 (fun x => x) false [[(7:ℚ)/10]] [[(1:ℚ)]] 1 1
    (by decide) (by decide) (by norm_num)
